import Mathlib

/-!
A shallow embedding of the NetworkConfig repository's parse-correlate-reconcile
pipeline, taken from `src/BASELINE/config_deploy_1.2.py` and
`src/scripts/build_mac_profile_db.py`, together with theorems settling the
stated properties of that pipeline.

Modelling conventions:
* Text is modelled as `List Char` (abbreviated `Str`); Python's `splitlines`
  on newline-separated text is modelled by splitting at `'\n'`.
* A Python `dict` is modelled as an insertion-ordered association list whose
  update replaces the first matching key in place (keys built this way are
  unique, so this coincides with `dict` semantics).
* A Python `set` is modelled as a duplicate-free list built by
  insert-if-absent; only membership and iteration feed the code paths below.
* Code that can raise (`int(...)` on a non-numeric string, indexing a
  too-short token list) is modelled with `Option`.
-/

namespace NetworkConfig

abbrev Str := List Char

/-- Split a character list at every occurrence of the separator character:
the model of Python `str.split(sep)` (and of `splitlines` for `sep = '\n'`). -/
def splitOnChar (sep : Char) : Str → List Str
  | [] => [[]]
  | c :: cs =>
    let r := splitOnChar sep cs
    if c == sep then [] :: r
    else
      match r with
      | [] => [[c]]
      | h :: t => (c :: h) :: t

/-- Split at every character satisfying `p`, keeping empty pieces. -/
def splitWhen (p : Char → Bool) : Str → List Str
  | [] => [[]]
  | c :: cs =>
    let r := splitWhen p cs
    if p c then [] :: r
    else
      match r with
      | [] => [[c]]
      | h :: t => (c :: h) :: t

/-- Python `str.split()` with no argument: whitespace-delimited tokens,
empty tokens discarded. -/
def pyWords (l : Str) : List Str :=
  (splitWhen Char.isWhitespace l).filter (fun t => !t.isEmpty)

/-- Python `str.strip()`. -/
def trimL (l : Str) : Str :=
  ((l.dropWhile Char.isWhitespace).reverse.dropWhile Char.isWhitespace).reverse

/-- Python `str.lower()`. -/
def toLowerL (l : Str) : Str := l.map Char.toLower

/-- `leadsWith pat s` holds when `pat` is an initial segment of `s`:
the model of Python `str.startswith`. -/
def leadsWith : Str → Str → Bool
  | [], _ => true
  | _ :: _, [] => false
  | p :: ps, c :: cs => p == c && leadsWith ps cs

/-- Substring containment, the model of Python's `sub in s`. -/
def containsSeg (pat : Str) : Str → Bool
  | [] => leadsWith pat []
  | c :: cs => leadsWith pat (c :: cs) || containsSeg pat cs

/-- Lines of a newline-separated text. -/
def splitLines (l : Str) : List Str := splitOnChar '\n' l

/-- Lookup in a Python-dict model: the value at the first matching key. -/
def dictGet {β : Type} (d : List (Str × β)) (k : Str) : Option β :=
  (d.find? (fun p => p.1 == k)).map (fun p => p.2)

/-- Update in a Python-dict model: replace the first binding of `k` in place,
or append a fresh binding. -/
def dictSet {β : Type} : List (Str × β) → Str → β → List (Str × β)
  | [], k, v => [(k, v)]
  | (a, b) :: t, k, v => if a == k then (k, v) :: t else (a, b) :: dictSet t k v

/-- Build a dict from a sequence of key-value pairs by repeated assignment,
exactly as the parser loops below do. -/
def buildDict {β : Type} (rows : List (Str × β)) : List (Str × β) :=
  rows.foldl (fun d r => dictSet d r.1 r.2) []

/-- One parsed row of the legacy MAC-address-table section
(`parse_config_collector_output` builds a list of dicts with exactly
these keys). -/
structure MacEntry where
  vlan : Str
  mac : Str
  interface : Str
  role : Str
deriving DecidableEq

/-- The `(mac, interface)` pairs that the loop of `parse_new_switch_mac_table`
inserts, in source order: a stripped non-empty line whose first character is a
digit (`re.match(r"^\d", line)`) and that splits into at least four
whitespace tokens contributes `(parts[1].lower(), parts[3])`. -/
def newSwitchRows (output : Str) : List (Str × Str) :=
  (splitLines output).flatMap (fun raw =>
    let line := trimL raw
    match line with
    | [] => []
    | c :: _ =>
      if c.isDigit then
        match pyWords line with
        | _ :: p1 :: _ :: p3 :: _ => [(toLowerL p1, p3)]
        | _ => []
      else [])

/-- `parse_new_switch_mac_table` of `config_deploy_1.2.py`: build the
mac → interface dict of the replacement switch by repeated assignment. -/
def parse_new_switch_mac_table (output : Str) : List (Str × Str) :=
  buildDict (newSwitchRows output)

/-- A character the regex class `[0-9a-f]` accepts. -/
def isLowerHexDigit (c : Char) : Bool :=
  c.isDigit || ('a' ≤ c && c ≤ 'f')

/-- `re.match(r"[0-9a-f]{4}\.[0-9a-f]{4}\.[0-9a-f]{4}", s)`: the pattern
matches an initial segment of `s` (trailing characters are unconstrained). -/
def dottedMacPrefixOk (s : Str) : Bool :=
  match s with
  | c0 :: c1 :: c2 :: c3 :: '.' :: c4 :: c5 :: c6 :: c7 :: '.' :: c8 :: c9 :: c10 :: c11 :: _ =>
    [c0, c1, c2, c3, c4, c5, c6, c7, c8, c9, c10, c11].all isLowerHexDigit
  | _ => false

/-- Two-character chunks of a list, the model of
`[mac[i:i+2] for i in range(0, len(mac), 2)]`. -/
def chunkPairs : Str → List Str
  | [] => []
  | [c] => [[c]]
  | c :: d :: rest => [c, d] :: chunkPairs rest

/-- The normalisation `build_mac_profile_db.py` applies to a dotted hardware
address before using it as a key: drop the dots, lower-case, and re-join the
octets with colons (`":".join(...)`). -/
def normalizeDottedMac (t : Str) : Str :=
  List.intercalate [':'] (chunkPairs (toLowerL (t.filter (fun c => c != '.'))))

/-- The `(mac, interface)` pairs inserted by the loop of
`get_mac_to_interface`: a line with at least three whitespace tokens whose
second token lower-cased begins with a dotted hardware address contributes
the normalised address paired with the last token (`parts[-1]`). -/
def dbRows (output : Str) : List (Str × Str) :=
  (splitLines output).flatMap (fun line =>
    match pyWords line with
    | p0 :: p1 :: p2 :: rest =>
      if dottedMacPrefixOk (toLowerL p1) then
        [(normalizeDottedMac p1, (p0 :: p1 :: p2 :: rest).getLastD [])]
      else []
    | _ => [])

/-- `get_mac_to_interface` of `build_mac_profile_db.py`: the mac → interface
dict of a legacy switch, keys normalised to colon-delimited lower case. -/
def get_mac_to_interface (output : Str) : List (Str × Str) :=
  buildDict (dbRows output)

/-- The section the collector-output parser is currently inside
(`current_section` in `parse_config_collector_output`). -/
inductive CfgSection where
  | secNone
  | secMac
  | secVlan
  | secRunning
deriving DecidableEq

/-- The loop state of `parse_config_collector_output`: current section,
accumulated MAC-table entries, accumulated VLAN-name dict. -/
structure CollectorState where
  sect : CfgSection
  entries : List MacEntry
  vlanNames : List (Str × Str)
deriving DecidableEq

/-- One loop iteration of `parse_config_collector_output`: strip the line,
skip blanks, switch sections at `===` markers (dispatching on substring
containment, in source order), and otherwise parse the line according to the
current section.  A MAC-section line needs at least three comma-separated
fields; the fourth, when present, is the role.  A VLAN-section line needs at
least two fields and assigns into the name dict. -/
def collectorStep (st : CollectorState) (raw : Str) : CollectorState :=
  let line := trimL raw
  if line.isEmpty then st
  else if leadsWith "===".toList line then
    if containsSeg "MAC_ADDRESS_TABLE".toList line then { st with sect := .secMac }
    else if containsSeg "VLAN_NAMES".toList line then { st with sect := .secVlan }
    else if containsSeg "RUNNING_CONFIG".toList line then { st with sect := .secRunning }
    else { st with sect := .secNone }
  else
    match st.sect with
    | .secMac =>
      match splitOnChar ',' line with
      | p0 :: p1 :: p2 :: rest =>
        { st with entries := st.entries ++
            [{ vlan := trimL p0, mac := toLowerL (trimL p1), interface := trimL p2,
               role := trimL (rest.headD []) }] }
      | _ => st
    | .secVlan =>
      match splitOnChar ',' line with
      | p0 :: p1 :: _ => { st with vlanNames := dictSet st.vlanNames (trimL p0) (trimL p1) }
      | _ => st
    | _ => st

/-- `parse_config_collector_output` of `config_deploy_1.2.py`, applied to the
text of the legacy snapshot file: the MAC-table entry list and the VLAN-name
dict. -/
def parse_config_collector_output (content : Str) : List MacEntry × List (Str × Str) :=
  let st := (splitLines content).foldl collectorStep ⟨.secNone, [], []⟩
  (st.entries, st.vlanNames)

/-- A replacement-switch MAC-table output in which the hardware address
`0050.7966.6802` appears on two rows with different ports, `Gi0/1` first. -/
def dupMacOutput : Str :=
  "1    0050.7966.6802    DYNAMIC     Gi0/1\n1    0050.7966.6802    DYNAMIC     Gi0/2".toList

/-- A legacy snapshot whose MAC-table section writes the hardware address in
colon-delimited form. -/
def colonLegacyFile : Str :=
  "=== MAC_ADDRESS_TABLE ===\n1100,00:50:79:66:68:02,Gi0/1,DATA".toList

/-- A replacement-switch MAC-table output writing the same hardware address
in the device's dotted form. -/
def dottedNewOutput : Str := "1    0050.7966.6802    DYNAMIC     Gi0/2".toList

/-- The hexadecimal digits of a hardware-address representation, lower-cased
and with all delimiters dropped: two representations denote the same
hardware address exactly when these agree. -/
def macHexDigits (s : Str) : Str := (toLowerL s).filter isLowerHexDigit

/-- A configuration directive appended to `commands` by
`build_config_commands`; `Cmd.render` below gives the literal command text
each constructor stands for. -/
inductive Cmd where
  | vlanCreate (vlan : Str)
  | vlanName (nm : Str)
  | selectInterface (intf : Str)
  | accessVlan (vlan : Str)
deriving DecidableEq

/-- The literal text of each directive, exactly the f-strings of the source:
`f"vlan {vlan}"`, `f" name {vlan_name}"`, `f"interface {new_interface}"`,
`f" switchport access vlan {vlan}"`. -/
def Cmd.render : Cmd → Str
  | .vlanCreate v => "vlan ".toList ++ v
  | .vlanName nm => " name ".toList ++ nm
  | .selectInterface i => "interface ".toList ++ i
  | .accessVlan v => " switchport access vlan ".toList ++ v

/-- A diagnostic printed by `build_config_commands` while skipping an entry:
`f"Warning: MAC {mac} not found on new switch. Skipping this entry."` or
`f"Skipping interface {new_interface} (mode: {mode}) - not a static access port."`. -/
inductive Diag where
  | macNotFound (mac : Str)
  | notAccessPort (intf : Str) (mode : Option Str)
deriving DecidableEq

/-- The `vlans_to_create` set of `build_config_commands`: the VLAN id of
every entry that is non-empty, not excluded and not already existing,
deduplicated (Python `set.add`, modelled insert-if-absent). -/
def vlansToCreate (entries : List MacEntry) (excludeVlans existingVlans : List Str) :
    List Str :=
  entries.foldl (fun acc e =>
    if e.vlan = [] ∨ e.vlan ∈ excludeVlans then acc
    else if e.vlan ∈ existingVlans then acc
    else if e.vlan ∈ acc then acc
    else acc ++ [e.vlan]) []

/-- Numeric value of a decimal digit character. -/
def digitVal (c : Char) : Nat := c.toNat - 48

/-- Value of a decimal digit string. -/
def decimalVal (l : Str) : Nat := l.foldl (fun n c => n * 10 + digitVal c) 0

/-- Modelled fragment of Python `int(...)`, covering the strings this
pipeline feeds it: defined on non-empty all-digit strings, anything else
raises `ValueError` (modelled `none`). -/
def pyInt (l : Str) : Option Nat :=
  if l ≠ [] ∧ l.all Char.isDigit then some (decimalVal l) else none

/-- Stable insertion of a VLAN id into a list sorted by numeric value. -/
def insertByVal (v : Str) : List Str → List Str
  | [] => [v]
  | w :: ws => if decimalVal v ≤ decimalVal w then v :: w :: ws else w :: insertByVal v ws

/-- The model of `sorted(vlans_to_create, key=lambda x: int(x))`: a stable
sort by numeric value. -/
def sortByVal (l : List Str) : List Str := l.foldr insertByVal []

/-- The VLAN-creation phase of `build_config_commands`: for each pending id
in ascending numeric order, a `vlan <id>` / ` name <name>` pair, the name
looked up in the catalog with fallback `f"VLAN_{vlan}"`. -/
def creationCommands (pending : List Str) (vlanNames : List (Str × Str)) : List Cmd :=
  (sortByVal pending).flatMap (fun v =>
    [Cmd.vlanCreate v, Cmd.vlanName ((dictGet vlanNames v).getD ("VLAN_".toList ++ v))])

/-- Loop state of the port-assignment pass of `build_config_commands`:
commands emitted so far, diagnostics printed so far, and the
`processed_interfaces` set. -/
structure AssignState where
  cmds : List Cmd
  diags : List Diag
  processed : List Str
deriving DecidableEq

/-- One iteration of the port-assignment loop of `build_config_commands`:
skip silently when the VLAN id or MAC is empty or the VLAN is excluded;
warn when the MAC does not resolve on the new switch (`dict.get` returning
`None` and an empty interface are both falsy); record a diagnostic and skip
when the resolved interface's operational mode is not exactly
`"static access"`; skip silently when the interface was already processed;
otherwise emit the `interface` / `switchport access vlan` pair and mark the
interface processed. -/
def assignStep (newMap : List (Str × Str)) (modes : List (Str × Option Str))
    (excludeVlans : List Str) (st : AssignState) (e : MacEntry) : AssignState :=
  if e.vlan = [] ∨ e.mac = [] ∨ e.vlan ∈ excludeVlans then st
  else
    let ni := (dictGet newMap e.mac).getD []
    if ni = [] then { st with diags := st.diags ++ [.macNotFound e.mac] }
    else
      let mode : Option Str := (dictGet modes ni).getD none
      if mode ≠ some "static access".toList then
        { st with diags := st.diags ++ [.notAccessPort ni mode] }
      else if ni ∈ st.processed then st
      else { cmds := st.cmds ++ [.selectInterface ni, .accessVlan e.vlan],
             diags := st.diags, processed := st.processed ++ [ni] }

/-- The whole port-assignment pass, a fold of `assignStep` over the legacy
entries in their original order. -/
def assignLoop (newMap : List (Str × Str)) (modes : List (Str × Option Str))
    (excludeVlans : List Str) (entries : List MacEntry) (st : AssignState) : AssignState :=
  entries.foldl (assignStep newMap modes excludeVlans) st

/-- `build_config_commands` of `config_deploy_1.2.py`: the VLAN-creation
commands followed by the port-assignment commands, paired with the printed
diagnostics.  The sort key `int(x)` raises on a non-numeric pending VLAN id,
so the whole call is `none` in that case. -/
def build_config_commands (entries : List MacEntry) (vlanNames : List (Str × Str))
    (existingVlans : List Str) (newMap : List (Str × Str))
    (modes : List (Str × Option Str)) (excludeVlans : List Str) :
    Option (List Cmd × List Diag) :=
  let pending := vlansToCreate entries excludeVlans existingVlans
  if pending.all (fun v => (pyInt v).isSome) then
    let st := assignLoop newMap modes excludeVlans entries ⟨[], [], []⟩
    some (creationCommands pending vlanNames ++ st.cmds, st.diags)
  else none

/-- The VLAN ids of the creation directives of a plan, in emission order. -/
def createdVlanIds (cmds : List Cmd) : List Str :=
  cmds.filterMap (fun c => match c with | .vlanCreate v => some v | _ => none)

/-- The interfaces selected by the assignment directives of a plan, in
emission order. -/
def selectedInterfaces (cmds : List Cmd) : List Str :=
  cmds.filterMap (fun c => match c with | .selectInterface i => some i | _ => none)

/-- The VLAN ids referenced by the `switchport access vlan` directives of a
plan, in emission order. -/
def assignedVlanIds (cmds : List Cmd) : List Str :=
  cmds.filterMap (fun c => match c with | .accessVlan v => some v | _ => none)

/-- A well-formed textual VLAN id: non-empty, all decimal digits, and
without a redundant leading zero. -/
def CanonicalVlanId (v : Str) : Prop :=
  v ≠ [] ∧ v.all Char.isDigit = true ∧ (v.head? = some '0' → v = ['0'])

instance (v : Str) : Decidable (CanonicalVlanId v) := by
  unfold CanonicalVlanId
  infer_instance

/-- A legacy snapshot whose MAC-table section carries a plainly non-numeric
VLAN field; the parser accepts it unchanged. -/
def junkVlanFile : Str := "=== MAC_ADDRESS_TABLE ===\nnot-a-vlan,JUNK,Gi0/9".toList

/-- Concrete legacy entries exercising the builder: a VLAN to create with a
catalog name, one with a fallback name, and an excluded one. -/
def entriesW : List MacEntry :=
  [⟨"1100".toList, "0050.7966.6802".toList, "Gi0/1".toList, "DATA".toList⟩,
   ⟨"20".toList, "0050.7966.6803".toList, "Gi0/2".toList, "VOICE".toList⟩,
   ⟨"999".toList, "0050.7966.6804".toList, "Gi0/3".toList, []⟩]

/-- Concrete VLAN-name catalog. -/
def namesW : List (Str × Str) := [("1100".toList, "DATA".toList)]

/-- Concrete existing-VLAN set of the replacement device. -/
def existingW : List Str := ["1".toList]

/-- Concrete replacement-device correlation index. -/
def newMapW : List (Str × Str) :=
  [("0050.7966.6802".toList, "Gi0/5".toList),
   ("0050.7966.6803".toList, "Gi0/6".toList),
   ("0050.7966.6804".toList, "Gi0/7".toList)]

/-- Concrete port-mode table: one access port, one trunk, one access. -/
def modesW : List (Str × Option Str) :=
  [("Gi0/5".toList, some "static access".toList),
   ("Gi0/6".toList, some "trunk".toList),
   ("Gi0/7".toList, some "static access".toList)]

/-- Concrete exclusion set. -/
def exclW : List Str := ["999".toList]

/-- The plan the builder produces on the concrete inputs above. -/
def cmdsW : List Cmd :=
  [Cmd.vlanCreate "20".toList, Cmd.vlanName "VLAN_20".toList,
   Cmd.vlanCreate "1100".toList, Cmd.vlanName "DATA".toList,
   Cmd.selectInterface "Gi0/5".toList, Cmd.accessVlan "1100".toList]

/-- The diagnostics the builder prints on the concrete inputs above. -/
def diagsW : List Diag := [Diag.notAccessPort "Gi0/6".toList (some "trunk".toList)]

/-- An entry resolving to the shared interface `Gi1`, first claimant. -/
def entryA : MacEntry := ⟨"10".toList, "aa".toList, "x".toList, []⟩

/-- A second entry with a different VLAN resolving to the same interface. -/
def entryB : MacEntry := ⟨"30".toList, "bb".toList, "y".toList, []⟩

/-- A correlation index sending both entries to one physical port. -/
def newMapShared : List (Str × Str) :=
  [("aa".toList, "Gi1".toList), ("bb".toList, "Gi1".toList)]

/-- The shared port is a static-access port. -/
def modesShared : List (Str × Option Str) :=
  [("Gi1".toList, some "static access".toList)]

/-- A raw line that opens an interface block:
`line.startswith("interface")` in `get_interface_blocks`. -/
def isDeclLine (l : Str) : Bool := leadsWith "interface".toList l

/-- The interface name of a declaration line: the second whitespace token of
the stripped line (`line.strip().split()[1]`; the source raises when the
token is missing, which the `Option` wrapper below reports as `none`). -/
def declName (l : Str) : Str := ((pyWords (trimL l)).get? 1).getD []

/-- A line at which the block being collected stops: a line beginning with
the terminator character `!`, or the next declaration line. -/
def blockEnd (l : Str) : Bool := leadsWith "!".toList l || isDeclLine l

/-- The loop of `get_interface_blocks`, with `cur` playing `current_int`:
a declaration line opens (or reopens) its block; inside a block a line
starting with `!` closes it and any other line is appended; outside a block
non-declaration lines are ignored. -/
def segCore : List Str → List (Str × List Str) → Option Str → List (Str × List Str)
  | [], blocks, _ => blocks
  | l :: ls, blocks, cur =>
    if isDeclLine l then segCore ls (dictSet blocks (declName l) [l]) (some (declName l))
    else
      match cur with
      | some c =>
        if leadsWith "!".toList l then segCore ls blocks none
        else segCore ls (dictSet blocks c ((dictGet blocks c).getD [] ++ [l])) (some c)
      | none => segCore ls blocks none

/-- A line on which the source cannot raise: either not a declaration line,
or one carrying at least two tokens. -/
def declLineOk (l : Str) : Bool :=
  !isDeclLine l || decide (2 ≤ (pyWords (trimL l)).length)

/-- `get_interface_blocks` of `build_mac_profile_db.py`: the per-interface
block dict, or `none` when a declaration line lacks its name token (the
source raises `IndexError` there). -/
def get_interface_blocks (showRun : Str) : Option (List (Str × List Str)) :=
  let lines := splitLines showRun
  if lines.all declLineOk then some (segCore lines [] none) else none

/-- The interface names declared in a line list, in order. -/
def declaredNames (lines : List Str) : List Str :=
  (lines.filter isDeclLine).map declName

/-- Modelled from the spec, amended reading: each declaration line opens a
block holding that line and every following line up to, but not including,
the first line BEGINNING WITH the terminator character or the next
declaration, whichever comes first; lines outside any block are ignored; a
block with no terminator before end-of-input runs to the end. -/
def specInterfaceBlocks : List Str → List (Str × List Str)
  | [] => []
  | l :: ls =>
    if isDeclLine l then
      (declName l, l :: ls.takeWhile (fun x => !blockEnd x)) :: specInterfaceBlocks ls
    else specInterfaceBlocks ls

/-- Modelled from the claim's literal words: a block ends only at a line
CONSISTING SOLELY OF the terminator character, or at the next declaration. -/
def strictTerminatorBlocks : List Str → List (Str × List Str)
  | [] => []
  | l :: ls =>
    if isDeclLine l then
      (declName l,
        l :: ls.takeWhile (fun x => !(x == "!".toList) && !isDeclLine x)) ::
        strictTerminatorBlocks ls
    else strictTerminatorBlocks ls

/-- A device configuration whose second line begins with, but does not
consist solely of, the terminator character. -/
def bangCommentRun : Str := "interface Gi0/1\n!x\n shutdown".toList

/-- A configuration with an ignored leading line, a terminated block, and a
final unterminated block. -/
def wellRun : Str :=
  "hostname sw1\ninterface Gi0/1\n sw acc\n!\ninterface Gi0/2\n x".toList

theorem dictGet_dictSet_self {β : Type} (d : List (Str × β)) (k : Str) (v : β) :
    dictGet (dictSet d k v) k = some v := by
  induction d with
  | nil => simp [dictGet, dictSet, List.find?_cons_of_pos]
  | cons p t ih =>
    obtain ⟨a, b⟩ := p
    by_cases h : a = k
    · subst h
      simp [dictGet, dictSet, List.find?_cons_of_pos]
    · have hb : (a == k) = false := beq_false_of_ne h
      simp only [dictSet, hb, Bool.false_eq_true, if_false]
      rw [dictGet, List.find?_cons_of_neg _ (by simp [hb]), ← dictGet, ih]

theorem dictGet_dictSet_ne {β : Type} (d : List (Str × β)) (k k' : Str) (v : β)
    (h : k' ≠ k) : dictGet (dictSet d k v) k' = dictGet d k' := by
  induction d with
  | nil =>
    have hk : ¬((k, v).1 == k') = true := by
      simp only [beq_false_of_ne (Ne.symm h)]; exact Bool.false_ne_true
    simp only [dictSet, dictGet]
    rw [List.find?_cons_of_neg (p := fun p : Str × β => p.1 == k') ([] : List (Str × β)) hk]
  | cons p t ih =>
    obtain ⟨a, b⟩ := p
    by_cases ha : a = k
    · subst ha
      have hk : (a == k') = false := beq_false_of_ne (Ne.symm h)
      simp only [dictSet, beq_self_eq_true, if_true, dictGet]
      rw [List.find?_cons_of_neg _ (by simp [hk]),
        List.find?_cons_of_neg _ (by simp [hk])]
    · have hb : (a == k) = false := beq_false_of_ne ha
      by_cases ha' : a = k'
      · subst ha'
        simp only [dictSet, hb, Bool.false_eq_true, if_false, dictGet]
        rw [List.find?_cons_of_pos _ (by simp), List.find?_cons_of_pos _ (by simp)]
      · have hb' : (a == k') = false := beq_false_of_ne ha'
        simp only [dictSet, hb, Bool.false_eq_true, if_false, dictGet]
        rw [List.find?_cons_of_neg _ (by simp [hb']),
          List.find?_cons_of_neg _ (by simp [hb'])]
        rw [← dictGet, ← dictGet, ih]

/-- Repeated dict assignment is last-write-wins: looking a key up in the built
dict returns the value of the last pair carrying that key. -/
theorem dictGet_foldl_dictSet {β : Type} (rows : List (Str × β))
    (d : List (Str × β)) (k : Str) :
    dictGet (rows.foldl (fun d r => dictSet d r.1 r.2) d) k =
      match rows.reverse.find? (fun p => p.1 == k) with
      | some p => some p.2
      | none => dictGet d k := by
  induction rows generalizing d with
  | nil => simp
  | cons r rs ih =>
    simp only [List.foldl_cons, List.reverse_cons, List.find?_append]
    rw [ih]
    cases hfind : rs.reverse.find? (fun p => p.1 == k) with
    | some p => simp [hfind, Option.or]
    | none =>
      simp only [hfind, Option.none_or]
      by_cases hk : r.1 = k
      · have hbt : ((fun p : Str × β => p.1 == k) r) = true := beq_iff_eq.mpr hk
        have hself : dictGet (dictSet d r.1 r.2) k = some r.2 := by
          rw [hk]; exact dictGet_dictSet_self d k r.2
        rw [List.find?_cons_of_pos (p := fun p : Str × β => p.1 == k) ([] : List (Str × β)) hbt]
        simpa using hself
      · have hb : ¬((fun p : Str × β => p.1 == k) r) = true := by
          simp only [beq_false_of_ne hk]; exact Bool.false_ne_true
        rw [List.find?_cons_of_neg (p := fun p : Str × β => p.1 == k) ([] : List (Str × β)) hb]
        simpa using dictGet_dictSet_ne d r.1 k r.2 (Ne.symm hk)

theorem dictGet_buildDict {β : Type} (rows : List (Str × β)) (k : Str) :
    dictGet (buildDict rows) k =
      (rows.reverse.find? (fun p => p.1 == k)).map (fun p => p.2) := by
  rw [buildDict, dictGet_foldl_dictSet]
  cases hfind : rows.reverse.find? (fun p => p.1 == k) <;> simp [hfind, dictGet]

/-- C1, counterexample: a hardware address inserted twice with `Gi0/1` first
and `Gi0/2` second looks up to `Gi0/2`, the LAST-inserted interface, not the
first-inserted one — the dict assignment `mac_map[mac] = interface` in
`parse_new_switch_mac_table` overwrites, so the claimed first-mapping-wins
behaviour is false on this input. -/
theorem correlation_index_first_wins_refuted :
    newSwitchRows dupMacOutput =
      [("0050.7966.6802".toList, "Gi0/1".toList),
       ("0050.7966.6802".toList, "Gi0/2".toList)] ∧
    dictGet (parse_new_switch_mac_table dupMacOutput) "0050.7966.6802".toList =
      some "Gi0/2".toList ∧
    some ("Gi0/2".toList) ≠ some ("Gi0/1".toList) :=
  ⟨by decide, by decide, by decide⟩

/-- C1, amended: for every hardware address inserted more than once into a
MAC correlation index with different interfaces, lookup returns the
LAST-inserted interface: each later colliding pair silently overwrites the
earlier one, without error, so the index still holds at most one interface
per hardware address.  This holds for both index builders
(`parse_new_switch_mac_table` and `get_mac_to_interface`). -/
theorem correlation_index_last_insertion_wins (output m : Str) :
    dictGet (parse_new_switch_mac_table output) m =
      ((newSwitchRows output).reverse.find? (fun p => p.1 == m)).map (fun p => p.2) ∧
    dictGet (get_mac_to_interface output) m =
      ((dbRows output).reverse.find? (fun p => p.1 == m)).map (fun p => p.2) :=
  ⟨dictGet_buildDict _ m, dictGet_buildDict _ m⟩

/-- C2, counterexample: a colon-delimited legacy representation and a
dot-delimited replacement representation of the SAME hardware address are not
brought to a common canonical form on the deploy path: the legacy parser
stores the colon form verbatim (only lower-cased), the replacement index is
keyed by the dotted form, the two keys differ, and the join lookup misses. -/
theorem mac_normalization_single_form_refuted :
    (parse_config_collector_output colonLegacyFile).1 =
      [⟨"1100".toList, "00:50:79:66:68:02".toList, "Gi0/1".toList, "DATA".toList⟩] ∧
    parse_new_switch_mac_table dottedNewOutput =
      [("0050.7966.6802".toList, "Gi0/2".toList)] ∧
    macHexDigits "00:50:79:66:68:02".toList = macHexDigits "0050.7966.6802".toList ∧
    "00:50:79:66:68:02".toList ≠ "0050.7966.6802".toList ∧
    dictGet (parse_new_switch_mac_table dottedNewOutput) "00:50:79:66:68:02".toList = none :=
  ⟨by decide, by decide, by decide, by decide, by decide⟩

/-- C2, amended: only `build_mac_profile_db.py` normalises across textual
representations, and only across dotted ones: any two tokens that agree after
dropping dots and lower-casing are mapped to one canonical colon-delimited
lower-case key by its normalisation; the deploy pipeline lower-cases but
preserves delimiters, so colon- and dot-delimited forms of one address do not
compare equal there (see the counterexample). -/
theorem mac_normalization_dotted_canonical (t₁ t₂ : Str)
    (h : toLowerL (t₁.filter (fun c => c != '.')) = toLowerL (t₂.filter (fun c => c != '.'))) :
    normalizeDottedMac t₁ = normalizeDottedMac t₂ ∧
    normalizeDottedMac "0050.7966.68AB".toList = "00:50:79:66:68:ab".toList := by
  constructor
  · unfold normalizeDottedMac
    rw [h]
  · decide

/-- C2, witness: upper- and lower-case spellings of one dotted hardware
address receive the same canonical key. -/
theorem mac_normalization_dotted_canonical_witness :
    normalizeDottedMac "0050.7966.68AB".toList = normalizeDottedMac "0050.7966.68ab".toList ∧
    normalizeDottedMac "0050.7966.68AB".toList = "00:50:79:66:68:ab".toList :=
  mac_normalization_dotted_canonical "0050.7966.68AB".toList "0050.7966.68ab".toList (by decide)

theorem vlansToCreate_step_mem (excl existing acc : List Str) (e : MacEntry) (v : Str) :
    (v ∈ (if e.vlan = [] ∨ e.vlan ∈ excl then acc
          else if e.vlan ∈ existing then acc
          else if e.vlan ∈ acc then acc
          else acc ++ [e.vlan])) ↔
      v ∈ acc ∨ (v ≠ [] ∧ v ∉ excl ∧ v ∉ existing ∧ e.vlan = v) := by
  by_cases h1 : e.vlan = [] ∨ e.vlan ∈ excl
  · rw [if_pos h1]
    constructor
    · exact Or.inl
    · rintro (h | ⟨hne, hex, _, hv⟩)
      · exact h
      · subst hv
        rcases h1 with h1 | h1
        · exact absurd h1 hne
        · exact absurd h1 hex
  · rw [if_neg h1]
    push_neg at h1
    by_cases h2 : e.vlan ∈ existing
    · rw [if_pos h2]
      constructor
      · exact Or.inl
      · rintro (h | ⟨_, _, hem, hv⟩)
        · exact h
        · exact absurd (hv ▸ h2) hem
    · rw [if_neg h2]
      by_cases h3 : e.vlan ∈ acc
      · rw [if_pos h3]
        constructor
        · exact Or.inl
        · rintro (h | ⟨_, _, _, hv⟩)
          · exact h
          · exact hv ▸ h3
      · rw [if_neg h3]
        constructor
        · intro h
          rcases List.mem_append.mp h with h | h
          · exact Or.inl h
          · rcases List.mem_singleton.mp h with rfl
            exact Or.inr ⟨h1.1, h1.2, h2, rfl⟩
        · rintro (h | ⟨_, _, _, hv⟩)
          · exact List.mem_append_left _ h
          · exact hv ▸ List.mem_append_right _ (List.mem_singleton.mpr rfl)

theorem vlansToCreate_foldl_mem (excl existing : List Str) (entries : List MacEntry)
    (acc : List Str) (v : Str) :
    (v ∈ entries.foldl (fun acc e =>
        if e.vlan = [] ∨ e.vlan ∈ excl then acc
        else if e.vlan ∈ existing then acc
        else if e.vlan ∈ acc then acc
        else acc ++ [e.vlan]) acc) ↔
      v ∈ acc ∨ (v ≠ [] ∧ v ∉ excl ∧ v ∉ existing ∧ ∃ e ∈ entries, e.vlan = v) := by
  induction entries generalizing acc with
  | nil => simp
  | cons e es ih =>
    rw [List.foldl_cons, ih, vlansToCreate_step_mem]
    constructor
    · rintro ((h | ⟨hne, hex, hem, hv⟩) | ⟨hne, hex, hem, e', he', hv⟩)
      · exact Or.inl h
      · exact Or.inr ⟨hne, hex, hem, e, List.mem_cons_self e es, hv⟩
      · exact Or.inr ⟨hne, hex, hem, e', List.mem_cons_of_mem e he', hv⟩
    · rintro (h | ⟨hne, hex, hem, e', he', hv⟩)
      · exact Or.inl (Or.inl h)
      · rcases List.mem_cons.mp he' with rfl | he'
        · exact Or.inl (Or.inr ⟨hne, hex, hem, hv⟩)
        · exact Or.inr ⟨hne, hex, hem, e', he', hv⟩

/-- Membership in the pending-creation set: exactly the non-empty VLAN ids of
legacy entries that are neither excluded nor already existing. -/
theorem mem_vlansToCreate (entries : List MacEntry) (excl existing : List Str) (v : Str) :
    v ∈ vlansToCreate entries excl existing ↔
      v ≠ [] ∧ v ∉ excl ∧ v ∉ existing ∧ ∃ e ∈ entries, e.vlan = v := by
  rw [vlansToCreate, vlansToCreate_foldl_mem]
  simp

theorem vlansToCreate_foldl_nodup (excl existing : List Str) (entries : List MacEntry)
    (acc : List Str) (h : acc.Nodup) :
    (entries.foldl (fun acc e =>
        if e.vlan = [] ∨ e.vlan ∈ excl then acc
        else if e.vlan ∈ existing then acc
        else if e.vlan ∈ acc then acc
        else acc ++ [e.vlan]) acc).Nodup := by
  induction entries generalizing acc with
  | nil => exact h
  | cons e es ih =>
    rw [List.foldl_cons]
    apply ih
    by_cases h1 : e.vlan = [] ∨ e.vlan ∈ excl
    · rwa [if_pos h1]
    · rw [if_neg h1]
      by_cases h2 : e.vlan ∈ existing
      · rwa [if_pos h2]
      · rw [if_neg h2]
        by_cases h3 : e.vlan ∈ acc
        · rwa [if_pos h3]
        · rw [if_neg h3]
          rw [List.nodup_append]
          exact ⟨h, List.nodup_singleton _, fun a ha hb =>
            h3 ((List.mem_singleton.mp hb) ▸ ha)⟩

/-- The pending-creation set holds each VLAN id at most once. -/
theorem nodup_vlansToCreate (entries : List MacEntry) (excl existing : List Str) :
    (vlansToCreate entries excl existing).Nodup :=
  vlansToCreate_foldl_nodup excl existing entries [] List.nodup_nil

theorem perm_insertByVal (v : Str) (l : List Str) : (insertByVal v l).Perm (v :: l) := by
  induction l with
  | nil => exact List.Perm.refl _
  | cons w ws ih =>
    rw [insertByVal]
    by_cases h : decimalVal v ≤ decimalVal w
    · rw [if_pos h]
    · rw [if_neg h]
      exact List.Perm.trans (List.Perm.cons w ih) (List.Perm.swap v w ws)

theorem perm_sortByVal (l : List Str) : (sortByVal l).Perm l := by
  induction l with
  | nil => exact List.Perm.refl _
  | cons x xs ih =>
    rw [sortByVal, List.foldr_cons]
    exact List.Perm.trans (perm_insertByVal x _) (List.Perm.cons x ih)

theorem mem_sortByVal (l : List Str) (v : Str) : v ∈ sortByVal l ↔ v ∈ l :=
  (perm_sortByVal l).mem_iff

theorem pairwise_insertByVal (v : Str) (l : List Str)
    (h : l.Pairwise (fun a b => decimalVal a ≤ decimalVal b)) :
    (insertByVal v l).Pairwise (fun a b => decimalVal a ≤ decimalVal b) := by
  induction l with
  | nil => simp [insertByVal]
  | cons w ws ih =>
    rw [insertByVal]
    rcases List.pairwise_cons.mp h with ⟨hw, hws⟩
    by_cases hle : decimalVal v ≤ decimalVal w
    · rw [if_pos hle]
      refine List.pairwise_cons.mpr ⟨?_, h⟩
      intro b hb
      rcases List.mem_cons.mp hb with rfl | hb
      · exact hle
      · exact Nat.le_trans hle (hw b hb)
    · rw [if_neg hle]
      refine List.pairwise_cons.mpr ⟨?_, ih hws⟩
      intro b hb
      rcases List.mem_cons.mp ((perm_insertByVal v ws).mem_iff.mp hb) with rfl | hb
      · exact Nat.le_of_lt (Nat.lt_of_not_le hle)
      · exact hw b hb

theorem pairwise_sortByVal (l : List Str) :
    (sortByVal l).Pairwise (fun a b => decimalVal a ≤ decimalVal b) := by
  induction l with
  | nil => simp [sortByVal]
  | cons x xs ih =>
    rw [sortByVal, List.foldr_cons]
    exact pairwise_insertByVal x _ ih

theorem mem_creationCommands (pending : List Str) (vlanNames : List (Str × Str)) (c : Cmd) :
    c ∈ creationCommands pending vlanNames ↔
      ∃ v ∈ sortByVal pending,
        c = Cmd.vlanCreate v ∨
        c = Cmd.vlanName ((dictGet vlanNames v).getD ("VLAN_".toList ++ v)) := by
  rw [creationCommands]
  simp [List.mem_flatMap]

theorem createdVlanIds_flatMap (vlanNames : List (Str × Str)) (l : List Str) :
    createdVlanIds (l.flatMap (fun v =>
      [Cmd.vlanCreate v, Cmd.vlanName ((dictGet vlanNames v).getD ("VLAN_".toList ++ v))])) = l := by
  induction l with
  | nil => rfl
  | cons x xs ih =>
    simp only [createdVlanIds] at ih ⊢
    rw [List.flatMap_cons, List.filterMap_append, ih]
    rfl

theorem createdVlanIds_creationCommands (pending : List Str) (vlanNames : List (Str × Str)) :
    createdVlanIds (creationCommands pending vlanNames) = sortByVal pending :=
  createdVlanIds_flatMap vlanNames (sortByVal pending)

theorem selectedInterfaces_creationCommands (pending : List Str) (vlanNames : List (Str × Str)) :
    selectedInterfaces (creationCommands pending vlanNames) = [] := by
  rw [selectedInterfaces, List.filterMap_eq_nil_iff]
  intro c hc
  rcases (mem_creationCommands pending vlanNames c).mp hc with ⟨v, _, rfl | rfl⟩ <;> rfl

theorem assignedVlanIds_creationCommands (pending : List Str) (vlanNames : List (Str × Str)) :
    assignedVlanIds (creationCommands pending vlanNames) = [] := by
  rw [assignedVlanIds, List.filterMap_eq_nil_iff]
  intro c hc
  rcases (mem_creationCommands pending vlanNames c).mp hc with ⟨v, _, rfl | rfl⟩ <;> rfl

section AssignPass

variable (newMap : List (Str × Str)) (modes : List (Str × Option Str)) (excl : List Str)

/-- Exhaustive shape of one assignment step: it leaves the state unchanged,
appends one diagnostic, or emits one `interface` / `switchport access vlan`
pair for a fresh, statically-accessed, non-empty interface of a non-excluded,
non-empty entry. -/
theorem assignStep_shape (st : AssignState) (e : MacEntry) :
    assignStep newMap modes excl st e = st ∨
    (∃ d, assignStep newMap modes excl st e = { st with diags := st.diags ++ [d] }) ∨
    (∃ i, (dictGet newMap e.mac).getD [] = i ∧ i ≠ [] ∧
      (dictGet modes i).getD none = some "static access".toList ∧
      i ∉ st.processed ∧ e.vlan ≠ [] ∧ e.vlan ∉ excl ∧
      assignStep newMap modes excl st e =
        { cmds := st.cmds ++ [Cmd.selectInterface i, Cmd.accessVlan e.vlan],
          diags := st.diags, processed := st.processed ++ [i] }) := by
  by_cases h1 : e.vlan = [] ∨ e.mac = [] ∨ e.vlan ∈ excl
  · left
    rw [assignStep, if_pos h1]
  · push_neg at h1
    by_cases h2 : (dictGet newMap e.mac).getD [] = []
    · right; left
      refine ⟨Diag.macNotFound e.mac, ?_⟩
      rw [assignStep, if_neg (by tauto)]
      simp [h2]
    · by_cases h3 : (dictGet modes ((dictGet newMap e.mac).getD [])).getD none ≠
          some "static access".toList
      · right; left
        refine ⟨Diag.notAccessPort ((dictGet newMap e.mac).getD [])
          ((dictGet modes ((dictGet newMap e.mac).getD [])).getD none), ?_⟩
        rw [assignStep, if_neg (by tauto)]
        simp only [if_neg h2, if_pos h3]
      · by_cases h4 : (dictGet newMap e.mac).getD [] ∈ st.processed
        · left
          rw [assignStep, if_neg (by tauto)]
          simp only [if_neg h2, if_neg h3, if_pos h4]
        · right; right
          refine ⟨(dictGet newMap e.mac).getD [], rfl, h2, of_not_not h3, h4,
            h1.1, h1.2.2, ?_⟩
          rw [assignStep, if_neg (by tauto)]
          simp only [if_neg h2, if_neg h3, if_neg h4]

theorem assignLoop_append (l₁ l₂ : List MacEntry) (st : AssignState) :
    assignLoop newMap modes excl (l₁ ++ l₂) st =
      assignLoop newMap modes excl l₂ (assignLoop newMap modes excl l₁ st) :=
  List.foldl_append _ _ _ _

theorem assignLoop_diags_mono (entries : List MacEntry) (st : AssignState) (d : Diag)
    (h : d ∈ st.diags) : d ∈ (assignLoop newMap modes excl entries st).diags := by
  induction entries generalizing st with
  | nil => exact h
  | cons e es ih =>
    rw [assignLoop, List.foldl_cons, ← assignLoop]
    apply ih
    rcases assignStep_shape newMap modes excl st e with hs | ⟨d', hs⟩ | ⟨i, _, _, _, _, _, _, hs⟩
    · rw [hs]; exact h
    · rw [hs]; exact List.mem_append_left _ h
    · rw [hs]; exact h

theorem assignLoop_cmds_mono (entries : List MacEntry) (st : AssignState) (c : Cmd)
    (h : c ∈ st.cmds) : c ∈ (assignLoop newMap modes excl entries st).cmds := by
  induction entries generalizing st with
  | nil => exact h
  | cons e es ih =>
    rw [assignLoop, List.foldl_cons, ← assignLoop]
    apply ih
    rcases assignStep_shape newMap modes excl st e with hs | ⟨d', hs⟩ | ⟨i, _, _, _, _, _, _, hs⟩
    · rw [hs]; exact h
    · rw [hs]; exact h
    · rw [hs]; exact List.mem_append_left _ h

/-- Every command the assignment pass adds is an interface selection of a
static-access interface or a VLAN assignment of a non-excluded, non-empty
VLAN id. -/
theorem assignLoop_cmds_shape (entries : List MacEntry) (st : AssignState) (c : Cmd)
    (hc : c ∈ (assignLoop newMap modes excl entries st).cmds) :
    c ∈ st.cmds ∨
    (∃ i, c = Cmd.selectInterface i ∧ i ≠ [] ∧
      (dictGet modes i).getD none = some "static access".toList) ∨
    (∃ v, c = Cmd.accessVlan v ∧ v ≠ [] ∧ v ∉ excl) := by
  induction entries generalizing st with
  | nil => exact Or.inl hc
  | cons e es ih =>
    rw [assignLoop, List.foldl_cons, ← assignLoop] at hc
    rcases ih _ hc with hin | hnew | hnew
    · rcases assignStep_shape newMap modes excl st e with hs | ⟨d', hs⟩ | ⟨i, _, hi, hm, _, hv, hx, hs⟩
      · rw [hs] at hin; exact Or.inl hin
      · rw [hs] at hin; exact Or.inl hin
      · rw [hs] at hin
        rcases List.mem_append.mp hin with hin | hin
        · exact Or.inl hin
        · rcases List.mem_cons.mp hin with rfl | hin
          · exact Or.inr (Or.inl ⟨i, rfl, hi, hm⟩)
          · rcases List.mem_singleton.mp hin with rfl
            exact Or.inr (Or.inr ⟨e.vlan, rfl, hv, hx⟩)
    · exact Or.inr (Or.inl hnew)
    · exact Or.inr (Or.inr hnew)

/-- A record whose hardware address resolves to an interface whose mode is
not exactly `"static access"` makes the step append precisely the
ineligible-port diagnostic. -/
theorem assignStep_bad_mode (st : AssignState) (e : MacEntry) (i : Str)
    (h1 : e.vlan ≠ []) (h2 : e.mac ≠ []) (h3 : e.vlan ∉ excl)
    (h4 : (dictGet newMap e.mac).getD [] = i) (h5 : i ≠ [])
    (h6 : (dictGet modes i).getD none ≠ some "static access".toList) :
    assignStep newMap modes excl st e =
      { st with diags := st.diags ++ [Diag.notAccessPort i ((dictGet modes i).getD none)] } := by
  rw [assignStep, if_neg (by tauto)]
  simp only [h4, if_neg h5, if_pos h6]

/-- A record that passes all gates but resolves to an interface already
processed in this run is skipped silently: the state is unchanged. -/
theorem assignStep_already_processed (st : AssignState) (e : MacEntry) (i : Str)
    (h1 : e.vlan ≠ []) (h2 : e.mac ≠ []) (h3 : e.vlan ∉ excl)
    (h4 : (dictGet newMap e.mac).getD [] = i) (h5 : i ≠ [])
    (h6 : (dictGet modes i).getD none = some "static access".toList)
    (h7 : i ∈ st.processed) :
    assignStep newMap modes excl st e = st := by
  rw [assignStep, if_neg (by tauto)]
  simp only [h4, if_neg h5, if_neg (not_not_intro h6), if_pos h7]

/-- Every ineligible-mode record leaves its diagnostic in the final list. -/
theorem assignLoop_bad_mode_diag (entries : List MacEntry) (st : AssignState)
    (e : MacEntry) (he : e ∈ entries) (i : Str)
    (h1 : e.vlan ≠ []) (h2 : e.mac ≠ []) (h3 : e.vlan ∉ excl)
    (h4 : (dictGet newMap e.mac).getD [] = i) (h5 : i ≠ [])
    (h6 : (dictGet modes i).getD none ≠ some "static access".toList) :
    Diag.notAccessPort i ((dictGet modes i).getD none) ∈
      (assignLoop newMap modes excl entries st).diags := by
  induction entries generalizing st with
  | nil => exact absurd he (List.not_mem_nil e)
  | cons a es ih =>
    rw [assignLoop, List.foldl_cons, ← assignLoop]
    rcases List.mem_cons.mp he with rfl | he
    · apply assignLoop_diags_mono
      rw [assignStep_bad_mode newMap modes excl st e i h1 h2 h3 h4 h5 h6]
      exact List.mem_append_right _ (List.mem_singleton.mpr rfl)
    · exact ih _ he

/-- The interfaces selected by the assignment pass are exactly its
`processed_interfaces` set, in order. -/
theorem assignLoop_selected_eq_processed (entries : List MacEntry) (st : AssignState)
    (h : selectedInterfaces st.cmds = st.processed) :
    selectedInterfaces (assignLoop newMap modes excl entries st).cmds =
      (assignLoop newMap modes excl entries st).processed := by
  induction entries generalizing st with
  | nil => exact h
  | cons e es ih =>
    rw [assignLoop, List.foldl_cons, ← assignLoop]
    apply ih
    rcases assignStep_shape newMap modes excl st e with hs | ⟨d', hs⟩ | ⟨i, _, _, _, _, _, _, hs⟩
    · rw [hs]; exact h
    · rw [hs]; exact h
    · rw [hs]
      show selectedInterfaces (st.cmds ++ [Cmd.selectInterface i, Cmd.accessVlan e.vlan]) =
        st.processed ++ [i]
      rw [selectedInterfaces, List.filterMap_append, ← selectedInterfaces, h]
      rfl

/-- The `processed_interfaces` set never acquires a duplicate. -/
theorem assignLoop_processed_nodup (entries : List MacEntry) (st : AssignState)
    (h : st.processed.Nodup) :
    (assignLoop newMap modes excl entries st).processed.Nodup := by
  induction entries generalizing st with
  | nil => exact h
  | cons e es ih =>
    rw [assignLoop, List.foldl_cons, ← assignLoop]
    apply ih
    rcases assignStep_shape newMap modes excl st e with hs | ⟨d', hs⟩ | ⟨i, _, _, _, hfresh, _, _, hs⟩
    · rw [hs]; exact h
    · rw [hs]; exact h
    · rw [hs]
      show (st.processed ++ [i]).Nodup
      rw [List.nodup_append]
      exact ⟨h, List.nodup_singleton _, fun a ha hb =>
        hfresh ((List.mem_singleton.mp hb) ▸ ha)⟩

end AssignPass

theorem digit_toNat_bounds (c : Char) (h : c.isDigit = true) :
    48 ≤ c.toNat ∧ c.toNat ≤ 57 := by
  simp only [Char.isDigit, Bool.and_eq_true, decide_eq_true_eq] at h
  exact ⟨h.1, h.2⟩

theorem digitVal_le_nine (c : Char) (h : c.isDigit = true) : digitVal c ≤ 9 := by
  have := digit_toNat_bounds c h
  rw [digitVal]
  omega

theorem digitVal_pos (c : Char) (h : c.isDigit = true) (h0 : c ≠ '0') :
    1 ≤ digitVal c := by
  have hb := digit_toNat_bounds c h
  have hne : c.toNat ≠ 48 := by
    intro he
    exact h0 (Char.eq_of_val_eq (UInt32.ext he))
  rw [digitVal]
  omega

theorem digitVal_inj (c c' : Char) (hc : c.isDigit = true) (hc' : c'.isDigit = true)
    (h : digitVal c = digitVal c') : c = c' := by
  have hb := digit_toNat_bounds c hc
  have hb' := digit_toNat_bounds c' hc'
  rw [digitVal, digitVal] at h
  have hn : c.toNat = c'.toNat := by omega
  exact Char.eq_of_val_eq (UInt32.ext hn)

theorem decimalVal_foldl (l : Str) (n : Nat) :
    l.foldl (fun n c => n * 10 + digitVal c) n = n * 10 ^ l.length + decimalVal l := by
  induction l generalizing n with
  | nil => simp [decimalVal]
  | cons c t ih =>
    rw [List.foldl_cons, ih]
    have hv : decimalVal (c :: t) = digitVal c * 10 ^ t.length + decimalVal t := by
      rw [decimalVal, List.foldl_cons, ih]
      ring_nf
    rw [hv, List.length_cons]
    ring

theorem decimalVal_cons (c : Char) (t : Str) :
    decimalVal (c :: t) = digitVal c * 10 ^ t.length + decimalVal t := by
  rw [decimalVal, List.foldl_cons, decimalVal_foldl]
  ring_nf

theorem decimalVal_lt (l : Str) (h : l.all Char.isDigit = true) :
    decimalVal l < 10 ^ l.length := by
  induction l with
  | nil => simp [decimalVal]
  | cons c t ih =>
    rw [List.all_cons, Bool.and_eq_true] at h
    have hc := digitVal_le_nine c h.1
    have ht := ih h.2
    rw [decimalVal_cons, List.length_cons]
    calc digitVal c * 10 ^ t.length + decimalVal t
        < (digitVal c + 1) * 10 ^ t.length := by
          have := Nat.pos_pow_of_pos t.length (by omega : 0 < 10)
          nlinarith
      _ ≤ 10 * 10 ^ t.length := Nat.mul_le_mul_right _ (by omega)
      _ = 10 ^ (t.length + 1) := by ring

theorem decimalVal_low_bound (v : Str) (hc : CanonicalVlanId v) (h2 : 2 ≤ v.length) :
    10 ^ (v.length - 1) ≤ decimalVal v := by
  obtain ⟨hne, hdig, hz⟩ := hc
  cases v with
  | nil => exact absurd rfl hne
  | cons c t =>
    have hc0 : c ≠ '0' := by
      intro he
      have := hz (by rw [he, List.head?_cons])
      rw [this] at h2
      simp at h2
    rw [List.all_cons, Bool.and_eq_true] at hdig
    have h1 := digitVal_pos c hdig.1 hc0
    rw [decimalVal_cons, List.length_cons]
    have : 10 ^ t.length ≤ digitVal c * 10 ^ t.length :=
      Nat.le_mul_of_pos_left _ (by omega)
    simpa using Nat.le_trans this (Nat.le_add_right _ _)

theorem msd_lt (dc dc' vt vt' B : Nat) (hvt : vt < B) (hd : dc < dc') :
    dc * B + vt < dc' * B + vt' :=
  calc dc * B + vt < dc * B + B := by omega
    _ = (dc + 1) * B := by ring
    _ ≤ dc' * B := Nat.mul_le_mul_right B hd
    _ ≤ dc' * B + vt' := Nat.le_add_right _ _

theorem decimalVal_inj_of_length_eq (v : Str) :
    ∀ w : Str, v.length = w.length → v.all Char.isDigit = true →
      w.all Char.isDigit = true → decimalVal v = decimalVal w → v = w := by
  induction v with
  | nil =>
    intro w hlen _ _ _
    cases w with
    | nil => rfl
    | cons c t => simp at hlen
  | cons c t ih =>
    intro w hlen hv hw heq
    cases w with
    | nil => simp at hlen
    | cons c' t' =>
      rw [List.length_cons, List.length_cons] at hlen
      have hlt : t.length = t'.length := by omega
      rw [List.all_cons, Bool.and_eq_true] at hv hw
      rw [decimalVal_cons, decimalVal_cons, ← hlt] at heq
      have h1 : decimalVal t < 10 ^ t.length := decimalVal_lt t hv.2
      have h2 : decimalVal t' < 10 ^ t.length := by
        rw [hlt]; exact decimalVal_lt t' hw.2
      have hd : digitVal c = digitVal c' := by
        rcases Nat.lt_trichotomy (digitVal c) (digitVal c') with hlt' | hq | hlt'
        · exact absurd heq (Nat.ne_of_lt (msd_lt _ _ _ _ _ h1 hlt'))
        · exact hq
        · exact absurd heq.symm (Nat.ne_of_lt (msd_lt _ _ _ _ _ h2 hlt'))
      have hcc : c = c' := digitVal_inj c c' hv.1 hw.1 hd
      have ht : decimalVal t = decimalVal t' := by
        rw [hd] at heq
        omega
      rw [hcc, ih t' hlt hv.2 hw.2 ht]

theorem decimalVal_inj_canonical (v w : Str) (hv : CanonicalVlanId v)
    (hw : CanonicalVlanId w) (h : decimalVal v = decimalVal w) : v = w := by
  have hv1 : 1 ≤ v.length := by
    cases v with
    | nil => exact absurd rfl hv.1
    | cons c t => simp
  have hw1 : 1 ≤ w.length := by
    cases w with
    | nil => exact absurd rfl hw.1
    | cons c t => simp
  rcases Nat.lt_trichotomy v.length w.length with hl | hl | hl
  · exfalso
    have ha : decimalVal v < 10 ^ v.length := decimalVal_lt v hv.2.1
    have hb : 10 ^ v.length ≤ 10 ^ (w.length - 1) :=
      Nat.pow_le_pow_right (by omega) (by omega)
    have hcW : 10 ^ (w.length - 1) ≤ decimalVal w :=
      decimalVal_low_bound w hw (by omega)
    omega
  · exact decimalVal_inj_of_length_eq v w hl hv.2.1 hw.2.1 h
  · exfalso
    have ha : decimalVal w < 10 ^ w.length := decimalVal_lt w hw.2.1
    have hb : 10 ^ w.length ≤ 10 ^ (v.length - 1) :=
      Nat.pow_le_pow_right (by omega) (by omega)
    have hcV : 10 ^ (v.length - 1) ≤ decimalVal v :=
      decimalVal_low_bound v hv (by omega)
    omega

/-- On canonical ids, the numeric sort is strictly increasing wherever the
input list has no duplicates. -/
theorem pairwise_lt_sortByVal (pending : List Str)
    (hcanon : ∀ v ∈ pending, CanonicalVlanId v) (hnd : pending.Nodup) :
    (sortByVal pending).Pairwise (fun a b => decimalVal a < decimalVal b) := by
  have hs := pairwise_sortByVal pending
  have hnd' : (sortByVal pending).Nodup := (perm_sortByVal pending).nodup_iff.mpr hnd
  refine (hs.and hnd').imp_of_mem ?_
  intro a b ha hb hab
  refine Nat.lt_of_le_of_ne hab.1 ?_
  intro heq
  exact hab.2 (decimalVal_inj_canonical a b
    (hcanon a ((mem_sortByVal pending a).mp ha))
    (hcanon b ((mem_sortByVal pending b).mp hb)) heq)

theorem build_eq_some (entries : List MacEntry) (vlanNames : List (Str × Str))
    (existing : List Str) (newMap : List (Str × Str)) (modes : List (Str × Option Str))
    (excl : List Str) (cmds : List Cmd) (diags : List Diag)
    (hb : build_config_commands entries vlanNames existing newMap modes excl =
      some (cmds, diags)) :
    cmds = creationCommands (vlansToCreate entries excl existing) vlanNames ++
      (assignLoop newMap modes excl entries ⟨[], [], []⟩).cmds ∧
    diags = (assignLoop newMap modes excl entries ⟨[], [], []⟩).diags := by
  rw [build_config_commands] at hb
  split at hb
  · simp only [Option.some.injEq, Prod.mk.injEq] at hb
    exact ⟨hb.1.symm, hb.2.symm⟩
  · exact absurd hb (by simp)

theorem createdVlanIds_assignLoop (newMap : List (Str × Str))
    (modes : List (Str × Option Str)) (excl : List Str) (entries : List MacEntry) :
    createdVlanIds (assignLoop newMap modes excl entries ⟨[], [], []⟩).cmds = [] := by
  rw [createdVlanIds, List.filterMap_eq_nil_iff]
  intro c hc
  rcases assignLoop_cmds_shape newMap modes excl entries ⟨[], [], []⟩ c hc with
    h | ⟨i, rfl, _, _⟩ | ⟨v, rfl, _, _⟩
  · exact absurd h (List.not_mem_nil c)
  · rfl
  · rfl

theorem createdVlanIds_plan (entries : List MacEntry) (vlanNames : List (Str × Str))
    (existing : List Str) (newMap : List (Str × Str)) (modes : List (Str × Option Str))
    (excl : List Str) :
    createdVlanIds (creationCommands (vlansToCreate entries excl existing) vlanNames ++
      (assignLoop newMap modes excl entries ⟨[], [], []⟩).cmds) =
      sortByVal (vlansToCreate entries excl existing) := by
  rw [createdVlanIds, List.filterMap_append]
  rw [show List.filterMap (fun c => match c with | Cmd.vlanCreate v => some v | _ => none)
      (creationCommands (vlansToCreate entries excl existing) vlanNames) =
      createdVlanIds (creationCommands (vlansToCreate entries excl existing) vlanNames) from rfl]
  rw [show List.filterMap (fun c => match c with | Cmd.vlanCreate v => some v | _ => none)
      (assignLoop newMap modes excl entries ⟨[], [], []⟩).cmds =
      createdVlanIds (assignLoop newMap modes excl entries ⟨[], [], []⟩).cmds from rfl]
  rw [createdVlanIds_creationCommands, createdVlanIds_assignLoop, List.append_nil]

/-- C3: a legacy record resolving to an interface whose operational mode is
not exactly `"static access"` produces no interface-selection directive for
that interface (the port is never mutated) and leaves an
ineligible-port diagnostic. -/
theorem nonaccess_ports_never_mutated (entries : List MacEntry)
    (vlanNames : List (Str × Str)) (existing : List Str) (newMap : List (Str × Str))
    (modes : List (Str × Option Str)) (excl : List Str) (cmds : List Cmd)
    (diags : List Diag) (i : Str)
    (hb : build_config_commands entries vlanNames existing newMap modes excl =
      some (cmds, diags))
    (hmode : (dictGet modes i).getD none ≠ some "static access".toList) :
    Cmd.selectInterface i ∉ cmds ∧
    ∀ e ∈ entries, e.vlan ≠ [] → e.mac ≠ [] → e.vlan ∉ excl →
      (dictGet newMap e.mac).getD [] = i → i ≠ [] →
      Diag.notAccessPort i ((dictGet modes i).getD none) ∈ diags := by
  obtain ⟨hc, hd⟩ := build_eq_some entries vlanNames existing newMap modes excl cmds diags hb
  subst hc
  subst hd
  constructor
  · intro hmem
    rcases List.mem_append.mp hmem with hmem | hmem
    · rcases (mem_creationCommands _ _ _).mp hmem with ⟨v, _, h | h⟩ <;> exact Cmd.noConfusion h
    · rcases assignLoop_cmds_shape newMap modes excl entries ⟨[], [], []⟩ _ hmem with
        h | ⟨i', he, _, hm⟩ | ⟨v, he, _, _⟩
      · exact absurd h (List.not_mem_nil _)
      · injection he with he
        exact hmode (he ▸ hm)
      · exact Cmd.noConfusion he
  · intro e he h1 h2 h3 h4 h5
    exact assignLoop_bad_mode_diag newMap modes excl entries ⟨[], [], []⟩ e he i
      h1 h2 h3 h4 h5 hmode

/-- C4: no directive of the plan references an excluded VLAN id — neither a
creation directive nor a port-assignment directive. -/
theorem excluded_vlan_never_referenced (entries : List MacEntry)
    (vlanNames : List (Str × Str)) (existing : List Str) (newMap : List (Str × Str))
    (modes : List (Str × Option Str)) (excl : List Str) (cmds : List Cmd)
    (diags : List Diag) (v : Str)
    (hb : build_config_commands entries vlanNames existing newMap modes excl =
      some (cmds, diags))
    (hv : v ∈ excl) :
    Cmd.vlanCreate v ∉ cmds ∧ Cmd.accessVlan v ∉ cmds := by
  obtain ⟨hc, _⟩ := build_eq_some entries vlanNames existing newMap modes excl cmds diags hb
  subst hc
  constructor
  · intro hmem
    rcases List.mem_append.mp hmem with hmem | hmem
    · rcases (mem_creationCommands _ _ _).mp hmem with ⟨w, hw, h | h⟩
      · injection h with h
        subst h
        rcases (mem_vlansToCreate entries excl existing v).mp
          ((mem_sortByVal _ v).mp hw) with ⟨_, hex, _, _⟩
        exact hex hv
      · exact Cmd.noConfusion h
    · rcases assignLoop_cmds_shape newMap modes excl entries ⟨[], [], []⟩ _ hmem with
        h | ⟨i, he, _, _⟩ | ⟨w, he, _, _⟩
      · exact absurd h (List.not_mem_nil _)
      · exact Cmd.noConfusion he
      · exact Cmd.noConfusion he
  · intro hmem
    rcases List.mem_append.mp hmem with hmem | hmem
    · rcases (mem_creationCommands _ _ _).mp hmem with ⟨w, _, h | h⟩ <;> exact Cmd.noConfusion h
    · rcases assignLoop_cmds_shape newMap modes excl entries ⟨[], [], []⟩ _ hmem with
        h | ⟨i, he, _, _⟩ | ⟨w, he, _, hx⟩
      · exact absurd h (List.not_mem_nil _)
      · exact Cmd.noConfusion he
      · injection he with he
        exact hx (he ▸ hv)

/-- C5: no creation directive is emitted for a VLAN id already existing on
the replacement device; the pending-creation set is duplicate-free and, when
every legacy record carries a non-empty VLAN id, contains exactly the ids of
records that are neither excluded nor already present. -/
theorem creation_set_exact (entries : List MacEntry) (vlanNames : List (Str × Str))
    (existing : List Str) (newMap : List (Str × Str)) (modes : List (Str × Option Str))
    (excl : List Str) (cmds : List Cmd) (diags : List Diag)
    (hb : build_config_commands entries vlanNames existing newMap modes excl =
      some (cmds, diags)) :
    (∀ v ∈ existing, Cmd.vlanCreate v ∉ cmds) ∧
    (vlansToCreate entries excl existing).Nodup ∧
    ((∀ e ∈ entries, e.vlan ≠ []) →
      ∀ v, v ∈ vlansToCreate entries excl existing ↔
        v ∉ excl ∧ v ∉ existing ∧ ∃ e ∈ entries, e.vlan = v) := by
  obtain ⟨hc, _⟩ := build_eq_some entries vlanNames existing newMap modes excl cmds diags hb
  subst hc
  refine ⟨?_, nodup_vlansToCreate entries excl existing, ?_⟩
  · intro v hv hmem
    rcases List.mem_append.mp hmem with hmem | hmem
    · rcases (mem_creationCommands _ _ _).mp hmem with ⟨w, hw, h | h⟩
      · injection h with h
        subst h
        rcases (mem_vlansToCreate entries excl existing v).mp
          ((mem_sortByVal _ v).mp hw) with ⟨_, _, hem, _⟩
        exact hem hv
      · exact Cmd.noConfusion h
    · rcases assignLoop_cmds_shape newMap modes excl entries ⟨[], [], []⟩ _ hmem with
        h | ⟨i, he, _, _⟩ | ⟨w, he, _, _⟩
      · exact absurd h (List.not_mem_nil _)
      · exact Cmd.noConfusion he
      · exact Cmd.noConfusion he
  · intro hne v
    rw [mem_vlansToCreate]
    constructor
    · rintro ⟨_, h2, h3, he⟩
      exact ⟨h2, h3, he⟩
    · rintro ⟨h2, h3, e, he, hv⟩
      subst hv
      exact ⟨hne e he, h2, h3, e, he, rfl⟩

/-- C6: when an earlier legacy record has already claimed the resolved
interface, a later record resolving to it is dropped with no directive and
no diagnostic — the run's outcome is as if the later record were absent —
and each interface receives at most one selection directive, matching the
processed-interface set exactly. -/
theorem same_interface_second_record_silent (newMap : List (Str × Str))
    (modes : List (Str × Option Str)) (excl : List Str) (l₁ l₂ : List MacEntry)
    (e : MacEntry) (i : Str)
    (h1 : e.vlan ≠ []) (h2 : e.mac ≠ []) (h3 : e.vlan ∉ excl)
    (h4 : (dictGet newMap e.mac).getD [] = i) (h5 : i ≠ [])
    (h6 : (dictGet modes i).getD none = some "static access".toList)
    (h7 : i ∈ (assignLoop newMap modes excl l₁ ⟨[], [], []⟩).processed) :
    assignLoop newMap modes excl (l₁ ++ e :: l₂) ⟨[], [], []⟩ =
      assignLoop newMap modes excl (l₁ ++ l₂) ⟨[], [], []⟩ ∧
    selectedInterfaces (assignLoop newMap modes excl (l₁ ++ e :: l₂) ⟨[], [], []⟩).cmds =
      (assignLoop newMap modes excl (l₁ ++ e :: l₂) ⟨[], [], []⟩).processed ∧
    (assignLoop newMap modes excl (l₁ ++ e :: l₂) ⟨[], [], []⟩).processed.Nodup := by
  refine ⟨?_, assignLoop_selected_eq_processed newMap modes excl _ _ rfl,
    assignLoop_processed_nodup newMap modes excl _ _ List.nodup_nil⟩
  rw [assignLoop_append, assignLoop_append]
  show assignLoop _ _ _ (e :: l₂) _ = assignLoop _ _ _ l₂ _
  rw [assignLoop, List.foldl_cons, ← assignLoop,
    assignStep_already_processed newMap modes excl _ e i h1 h2 h3 h4 h5 h6 h7]

theorem pair_infix_creation (vlanNames : List (Str × Str)) (l : List Str) (v : Str)
    (hv : v ∈ l) :
    List.IsInfix [Cmd.vlanCreate v,
        Cmd.vlanName ((dictGet vlanNames v).getD ("VLAN_".toList ++ v))]
      (l.flatMap (fun w =>
        [Cmd.vlanCreate w, Cmd.vlanName ((dictGet vlanNames w).getD ("VLAN_".toList ++ w))])) := by
  induction l with
  | nil => exact absurd hv (List.not_mem_nil v)
  | cons w ws ih =>
    rw [List.flatMap_cons]
    rcases List.mem_cons.mp hv with rfl | hv
    · exact ⟨[], ws.flatMap (fun w =>
        [Cmd.vlanCreate w, Cmd.vlanName ((dictGet vlanNames w).getD ("VLAN_".toList ++ w))]),
        by simp⟩
    · obtain ⟨s, t, hst⟩ := ih hv
      refine ⟨[Cmd.vlanCreate w,
        Cmd.vlanName ((dictGet vlanNames w).getD ("VLAN_".toList ++ w))] ++ s, t, ?_⟩
      rw [List.append_assoc, List.append_assoc]
      rw [List.append_assoc] at hst
      rw [hst]

/-- C7: when the pending VLAN ids are well-formed decimal numerals, the
creation directives of the plan appear in strictly ascending numeric order,
and each created id comes as an adjacent `vlan <id>` / ` name <name>` pair
whose name is the catalog entry, or the synthesized `VLAN_<id>` fallback
when the id is absent from the catalog. -/
theorem creation_directives_sorted_named (entries : List MacEntry)
    (vlanNames : List (Str × Str)) (existing : List Str) (newMap : List (Str × Str))
    (modes : List (Str × Option Str)) (excl : List Str) (cmds : List Cmd)
    (diags : List Diag)
    (hb : build_config_commands entries vlanNames existing newMap modes excl =
      some (cmds, diags))
    (hcanon : ∀ e ∈ entries, e.vlan ∉ excl → e.vlan ∉ existing → CanonicalVlanId e.vlan) :
    (createdVlanIds cmds).Pairwise (fun a b => decimalVal a < decimalVal b) ∧
    ∀ v ∈ createdVlanIds cmds,
      List.IsInfix [Cmd.vlanCreate v,
        Cmd.vlanName ((dictGet vlanNames v).getD ("VLAN_".toList ++ v))] cmds := by
  obtain ⟨hc, _⟩ := build_eq_some entries vlanNames existing newMap modes excl cmds diags hb
  subst hc
  have hcan' : ∀ v ∈ vlansToCreate entries excl existing, CanonicalVlanId v := by
    intro v hv
    rcases (mem_vlansToCreate entries excl existing v).mp hv with ⟨_, hex, hem, e, he, hvv⟩
    subst hvv
    exact hcanon e he hex hem
  rw [createdVlanIds_plan]
  constructor
  · exact pairwise_lt_sortByVal _ hcan' (nodup_vlansToCreate entries excl existing)
  · intro v hv
    obtain ⟨s, t, hst⟩ :=
      pair_infix_creation vlanNames (sortByVal (vlansToCreate entries excl existing)) v hv
    refine ⟨s, t ++ (assignLoop newMap modes excl entries ⟨[], [], []⟩).cmds, ?_⟩
    have hassoc : s ++ [Cmd.vlanCreate v,
        Cmd.vlanName ((dictGet vlanNames v).getD ("VLAN_".toList ++ v))] ++
        (t ++ (assignLoop newMap modes excl entries ⟨[], [], []⟩).cmds) =
        (s ++ [Cmd.vlanCreate v,
          Cmd.vlanName ((dictGet vlanNames v).getD ("VLAN_".toList ++ v))] ++ t) ++
        (assignLoop newMap modes excl entries ⟨[], [], []⟩).cmds := by
      simp [List.append_assoc]
    rw [hassoc, hst]
    rfl

/-- C8: re-running the builder with the existing-VLAN set augmented by the
VLANs the first plan created yields an empty pending-creation set and a plan
with no creation directives. -/
theorem builder_round_trip (entries : List MacEntry) (vlanNames : List (Str × Str))
    (existing : List Str) (newMap : List (Str × Str)) (modes : List (Str × Option Str))
    (excl : List Str) (cmds : List Cmd) (diags : List Diag)
    (hb : build_config_commands entries vlanNames existing newMap modes excl =
      some (cmds, diags)) :
    vlansToCreate entries excl (existing ++ createdVlanIds cmds) = [] ∧
    ∃ cmds₂ diags₂,
      build_config_commands entries vlanNames (existing ++ createdVlanIds cmds)
        newMap modes excl = some (cmds₂, diags₂) ∧
      createdVlanIds cmds₂ = [] := by
  obtain ⟨hc, _⟩ := build_eq_some entries vlanNames existing newMap modes excl cmds diags hb
  subst hc
  rw [createdVlanIds_plan]
  have hp2 : vlansToCreate entries excl
      (existing ++ sortByVal (vlansToCreate entries excl existing)) = [] := by
    rw [List.eq_nil_iff_forall_not_mem]
    intro v hv
    rcases (mem_vlansToCreate entries excl _ v).mp hv with ⟨hne, hex, hem, e, he, hvv⟩
    apply hem
    apply List.mem_append_right
    rw [mem_sortByVal, mem_vlansToCreate]
    exact ⟨hne, hex, fun hmem => hem (List.mem_append_left _ hmem), e, he, hvv⟩
  refine ⟨hp2, (assignLoop newMap modes excl entries ⟨[], [], []⟩).cmds,
    (assignLoop newMap modes excl entries ⟨[], [], []⟩).diags, ?_,
    createdVlanIds_assignLoop newMap modes excl entries⟩
  rw [build_config_commands, hp2]
  simp [creationCommands, sortByVal]

/-- C10: the builder is total whenever every legacy VLAN id that is neither
excluded nor already existing consists solely of decimal digits — the sort
key `int(x)` is then always defined — and the legacy-snapshot parser itself
performs no validation of the VLAN field (it passes a non-numeric field
through verbatim), so the precondition falls to the caller. -/
theorem build_total_on_digit_vlans (entries : List MacEntry)
    (vlanNames : List (Str × Str)) (existing : List Str) (newMap : List (Str × Str))
    (modes : List (Str × Option Str)) (excl : List Str)
    (h : ∀ e ∈ entries, e.vlan ∉ excl → e.vlan ∉ existing →
      e.vlan.all Char.isDigit = true) :
    (build_config_commands entries vlanNames existing newMap modes excl).isSome = true ∧
    (parse_config_collector_output junkVlanFile).1 =
      [⟨"not-a-vlan".toList, "junk".toList, "Gi0/9".toList, []⟩] := by
  constructor
  · have hall : (vlansToCreate entries excl existing).all
        (fun v => (pyInt v).isSome) = true := by
      rw [List.all_eq_true]
      intro v hv
      rcases (mem_vlansToCreate entries excl existing v).mp hv with ⟨hne, hex, hem, e, he, hvv⟩
      subst hvv
      rw [pyInt, if_pos ⟨hne, h e he hex hem⟩]
      rfl
    rw [build_config_commands, hall]
    rfl
  · decide

/-- C3, witness: on the concrete inputs the trunk port `Gi0/6` is never
selected and its skip diagnostic is recorded. -/
theorem nonaccess_ports_never_mutated_witness :
    Cmd.selectInterface "Gi0/6".toList ∉ cmdsW ∧
    Diag.notAccessPort "Gi0/6".toList (some "trunk".toList) ∈ diagsW := by
  have h := nonaccess_ports_never_mutated entriesW namesW existingW newMapW modesW exclW
    cmdsW diagsW ("Gi0/6".toList) (by decide) (by decide)
  exact ⟨h.1, h.2 ⟨"20".toList, "0050.7966.6803".toList, "Gi0/2".toList, "VOICE".toList⟩
    (by decide) (by decide) (by decide) (by decide) (by decide) (by decide)⟩

/-- C4, witness: on the concrete inputs no directive references the excluded
VLAN id `999`. -/
theorem excluded_vlan_never_referenced_witness :
    Cmd.vlanCreate "999".toList ∉ cmdsW ∧ Cmd.accessVlan "999".toList ∉ cmdsW :=
  excluded_vlan_never_referenced entriesW namesW existingW newMapW modesW exclW
    cmdsW diagsW ("999".toList) (by decide) (by decide)

/-- C5, witness: on the concrete inputs the existing VLAN `1` is never
created, the pending set is duplicate-free, and `1100` is pending exactly as
characterised. -/
theorem creation_set_exact_witness :
    Cmd.vlanCreate "1".toList ∉ cmdsW ∧
    (vlansToCreate entriesW exclW existingW).Nodup ∧
    ("1100".toList ∈ vlansToCreate entriesW exclW existingW ↔
      "1100".toList ∉ exclW ∧ "1100".toList ∉ existingW ∧
        ∃ e ∈ entriesW, e.vlan = "1100".toList) := by
  have h := creation_set_exact entriesW namesW existingW newMapW modesW exclW cmdsW diagsW
    (by decide)
  exact ⟨h.1 "1".toList (by decide), h.2.1, h.2.2 (by decide) "1100".toList⟩

/-- C6, witness: with two records claiming `Gi1`, the run is identical to the
run without the second record — no directive and no diagnostic for it — and
selections match the processed set without duplicates. -/
theorem same_interface_second_record_silent_witness :
    assignLoop newMapShared modesShared [] [entryA, entryB] ⟨[], [], []⟩ =
      assignLoop newMapShared modesShared [] [entryA] ⟨[], [], []⟩ ∧
    selectedInterfaces
        (assignLoop newMapShared modesShared [] [entryA, entryB] ⟨[], [], []⟩).cmds =
      (assignLoop newMapShared modesShared [] [entryA, entryB] ⟨[], [], []⟩).processed ∧
    (assignLoop newMapShared modesShared [] [entryA, entryB] ⟨[], [], []⟩).processed.Nodup :=
  same_interface_second_record_silent newMapShared modesShared [] [entryA] [] entryB
    ("Gi1".toList) (by decide) (by decide) (by decide) (by decide) (by decide) (by decide)
    (by decide)

/-- C7, witness: on the concrete inputs the created ids `20`, `1100` are in
strict ascending numeric order and `20` gets its adjacent fallback-named
pair. -/
theorem creation_directives_sorted_named_witness :
    (createdVlanIds cmdsW).Pairwise (fun a b => decimalVal a < decimalVal b) ∧
    List.IsInfix [Cmd.vlanCreate "20".toList, Cmd.vlanName "VLAN_20".toList] cmdsW := by
  have h := creation_directives_sorted_named entriesW namesW existingW newMapW modesW exclW
    cmdsW diagsW (by decide) (by decide)
  exact ⟨h.1, h.2 "20".toList (by decide)⟩

/-- C8, witness: on the concrete inputs, re-running against the augmented
existing-VLAN set leaves nothing pending. -/
theorem builder_round_trip_witness :
    vlansToCreate entriesW exclW (existingW ++ createdVlanIds cmdsW) = [] :=
  (builder_round_trip entriesW namesW existingW newMapW modesW exclW cmdsW diagsW
    (by decide)).1

/-- C10, witness: on the concrete all-digit inputs the builder returns a
plan. -/
theorem build_total_on_digit_vlans_witness :
    (build_config_commands entriesW namesW existingW newMapW modesW exclW).isSome = true :=
  (build_total_on_digit_vlans entriesW namesW existingW newMapW modesW exclW (by decide)).1

theorem dictSet_dictSet {β : Type} (d : List (Str × β)) (k : Str) (x y : β) :
    dictSet (dictSet d k x) k y = dictSet d k y := by
  induction d with
  | nil => simp [dictSet]
  | cons p t ih =>
    obtain ⟨a, b⟩ := p
    by_cases h : a = k
    · subst h
      simp [dictSet]
    · have hb : (a == k) = false := beq_false_of_ne h
      simp [dictSet, hb, ih]

theorem declaredNames_cons (l : Str) (ls : List Str) :
    declaredNames (l :: ls) =
      if isDeclLine l then declName l :: declaredNames ls else declaredNames ls := by
  by_cases h : isDeclLine l <;> simp [declaredNames, List.filter_cons, h]

theorem declaredNames_append (a b : List Str) :
    declaredNames (a ++ b) = declaredNames a ++ declaredNames b := by
  simp [declaredNames, List.filter_append]

theorem declaredNames_eq_nil (xs : List Str) (h : ∀ l ∈ xs, isDeclLine l = false) :
    declaredNames xs = [] := by
  rw [declaredNames, List.filter_eq_nil_iff.mpr (by simpa using h)]
  rfl

theorem specInterfaceBlocks_cons_decl (l : Str) (ls : List Str) (h : isDeclLine l = true) :
    specInterfaceBlocks (l :: ls) =
      (declName l, l :: ls.takeWhile (fun x => !blockEnd x)) :: specInterfaceBlocks ls := by
  simp [specInterfaceBlocks, h]

theorem specInterfaceBlocks_cons_skip (l : Str) (ls : List Str) (h : isDeclLine l = false) :
    specInterfaceBlocks (l :: ls) = specInterfaceBlocks ls := by
  simp [specInterfaceBlocks, h]

theorem specInterfaceBlocks_nondecl_append (pre rest : List Str)
    (h : ∀ l ∈ pre, isDeclLine l = false) :
    specInterfaceBlocks (pre ++ rest) = specInterfaceBlocks rest := by
  induction pre with
  | nil => rfl
  | cons l pre ih =>
    rw [List.cons_append,
      specInterfaceBlocks_cons_skip _ _ (h l (List.mem_cons_self l pre))]
    exact ih (fun x hx => h x (List.mem_cons_of_mem l hx))

theorem dictGet_specInterfaceBlocks_not_declared (xs : List Str) (n : Str)
    (h : n ∉ declaredNames xs) : dictGet (specInterfaceBlocks xs) n = none := by
  induction xs with
  | nil => rfl
  | cons l ls ih =>
    rw [declaredNames_cons] at h
    by_cases hd : isDeclLine l
    · rw [if_pos hd] at h
      have hne : n ≠ declName l := fun he => h (he ▸ List.mem_cons_self _ _)
      rw [specInterfaceBlocks_cons_decl l ls hd, dictGet,
        List.find?_cons_of_neg _ (by simp [beq_false_of_ne (Ne.symm hne)])]
      exact ih (fun hm => h (List.mem_cons_of_mem _ hm))
    · rw [if_neg hd] at h
      rw [specInterfaceBlocks_cons_skip l ls (by simpa using hd)]
      exact ih h

theorem dropWhile_head_false (p : Str → Bool) :
    ∀ (l : List Str) (r : Str) (rs : List Str), l.dropWhile p = r :: rs → p r = false := by
  intro l
  induction l with
  | nil =>
    intro r rs h
    simp [List.dropWhile] at h
  | cons x xs ih =>
    intro r rs h
    rw [List.dropWhile_cons] at h
    by_cases hx : p x = true
    · rw [if_pos hx] at h
      exact ih r rs h
    · rw [if_neg hx] at h
      injection h with h1 _
      rw [← h1]
      exact Bool.not_eq_true _ ▸ hx

theorem segCore_cons_decl (l : Str) (ls : List Str) (blocks : List (Str × List Str))
    (cur : Option Str) (h : isDeclLine l = true) :
    segCore (l :: ls) blocks cur =
      segCore ls (dictSet blocks (declName l) [l]) (some (declName l)) := by
  cases cur <;> simp [segCore, h]

theorem segCore_cons_skip (l : Str) (ls : List Str) (blocks : List (Str × List Str))
    (h : isDeclLine l = false) :
    segCore (l :: ls) blocks none = segCore ls blocks none := by
  simp [segCore, h]

theorem segCore_cons_bang (l : Str) (ls : List Str) (blocks : List (Str × List Str))
    (c : Str) (hd : isDeclLine l = false) (hb : leadsWith "!".toList l = true) :
    segCore (l :: ls) blocks (some c) = segCore ls blocks none := by
  simp [segCore, hd, show leadsWith ['!'] l = true from hb]

theorem segCore_cons_body (l : Str) (ls : List Str) (blocks : List (Str × List Str))
    (c : Str) (hd : isDeclLine l = false) (hb : leadsWith "!".toList l = false) :
    segCore (l :: ls) blocks (some c) =
      segCore ls (dictSet blocks c ((dictGet blocks c).getD [] ++ [l])) (some c) := by
  simp [segCore, hd, show leadsWith ['!'] l = false from hb]

/-- While no block-ending line arrives, the collector appends every line to
the current block. -/
theorem segCore_consume (ls : List Str) (blocks : List (Str × List Str)) (c : Str)
    (acc : List Str) :
    segCore ls (dictSet blocks c acc) (some c) =
      segCore (ls.dropWhile (fun x => !blockEnd x))
        (dictSet blocks c (acc ++ ls.takeWhile (fun x => !blockEnd x))) (some c) := by
  induction ls generalizing acc with
  | nil => simp
  | cons l ls ih =>
    by_cases hend : blockEnd l = true
    · have hp : (!blockEnd l) = false := by simp [hend]
      rw [List.dropWhile_cons, List.takeWhile_cons]
      simp [hp]
    · have hbf : blockEnd l = false := by simpa using hend
      rcases Bool.or_eq_false_iff.mp (by rwa [blockEnd] at hbf) with ⟨hbang, hd⟩
      have hp : (!blockEnd l) = true := by simp [hbf]
      calc segCore (l :: ls) (dictSet blocks c acc) (some c)
          = segCore ls (dictSet blocks c (acc ++ [l])) (some c) := by
            rw [segCore_cons_body l ls _ c hd hbang, dictGet_dictSet_self,
              dictSet_dictSet]
            rfl
        _ = segCore (ls.dropWhile (fun x => !blockEnd x))
              (dictSet blocks c ((acc ++ [l]) ++ ls.takeWhile (fun x => !blockEnd x)))
              (some c) := ih (acc ++ [l])
        _ = _ := by
            rw [List.dropWhile_cons, List.takeWhile_cons]
            simp [hp, List.append_assoc]
theorem dictGet_cons_self {β : Type} (k : Str) (v : β) (d : List (Str × β)) :
    dictGet ((k, v) :: d) k = some v := by
  rw [dictGet, List.find?_cons_of_pos _ (by simp)]
  rfl

theorem dictGet_cons_ne {β : Type} (k : Str) (v : β) (d : List (Str × β)) (n : Str)
    (h : n ≠ k) : dictGet ((k, v) :: d) n = dictGet d n := by
  rw [dictGet, List.find?_cons_of_neg _ (by simp [beq_false_of_ne (Ne.symm h)])]
  rfl

/-- The collector loop, started outside any block on lines whose declared
names are pairwise distinct and absent from the accumulated dict, agrees
with the specified segmentation wherever the latter speaks, and preserves
the dict elsewhere. -/
theorem segCore_spec (N : Nat) : ∀ ls : List Str, ls.length = N →
    ∀ blocks : List (Str × List Str), (declaredNames ls).Nodup →
    (∀ m ∈ declaredNames ls, dictGet blocks m = none) → ∀ n : Str,
    dictGet (segCore ls blocks none) n =
      (dictGet (specInterfaceBlocks ls) n).or (dictGet blocks n) := by
  induction N using Nat.strong_induction_on with
  | _ N ih =>
    intro ls hlen blocks hnd hfresh n
    cases ls with
    | nil => simp [segCore, specInterfaceBlocks, dictGet]
    | cons l ls' =>
      by_cases hdecl : isDeclLine l = true
      · have hdn : declaredNames (l :: ls') = declName l :: declaredNames ls' := by
          rw [declaredNames_cons, if_pos hdecl]
        rw [hdn] at hnd hfresh
        have hn0 : declName l ∉ declaredNames ls' := (List.nodup_cons.mp hnd).1
        have hnd' : (declaredNames ls').Nodup := (List.nodup_cons.mp hnd).2
        have hconsnd : ∀ x ∈ ls'.takeWhile (fun x => !blockEnd x), isDeclLine x = false := by
          intro x hx
          have hpx := List.mem_takeWhile_imp hx
          have hbx : blockEnd x = false := by simpa using hpx
          exact (Bool.or_eq_false_iff.mp (by rwa [blockEnd] at hbx)).2
        have hsplit : ls'.takeWhile (fun x => !blockEnd x) ++
            ls'.dropWhile (fun x => !blockEnd x) = ls' :=
          List.takeWhile_append_dropWhile _ _
        have hnames : declaredNames ls' =
            declaredNames (ls'.dropWhile (fun x => !blockEnd x)) := by
          conv_lhs => rw [← hsplit]
          rw [declaredNames_append, declaredNames_eq_nil _ hconsnd, List.nil_append]
        have hspecls : specInterfaceBlocks ls' =
            specInterfaceBlocks (ls'.dropWhile (fun x => !blockEnd x)) := by
          conv_lhs => rw [← hsplit]
          exact specInterfaceBlocks_nondecl_append _ _ hconsnd
        have hspec : specInterfaceBlocks (l :: ls') =
            (declName l, l :: ls'.takeWhile (fun x => !blockEnd x)) ::
              specInterfaceBlocks (ls'.dropWhile (fun x => !blockEnd x)) := by
          rw [specInterfaceBlocks_cons_decl l ls' hdecl, hspecls]
        rw [segCore_cons_decl l ls' blocks none hdecl, segCore_consume, hspec]
        have hlensplit : (ls'.takeWhile (fun x => !blockEnd x)).length +
            (ls'.dropWhile (fun x => !blockEnd x)).length = ls'.length := by
          conv_rhs => rw [← hsplit]
          rw [List.length_append]
        cases hrest : ls'.dropWhile (fun x => !blockEnd x) with
        | nil =>
          simp only [segCore]
          by_cases hn : n = declName l
          · subst hn
            rw [dictGet_dictSet_self, dictGet_cons_self]
            rfl
          · rw [dictGet_dictSet_ne _ _ _ _ hn, dictGet_cons_ne _ _ _ _ hn]
            rw [show dictGet (specInterfaceBlocks ([] : List Str)) n =
              (none : Option (List Str)) from rfl, Option.none_or]
        | cons r rs =>
          have hr : (fun x => !blockEnd x) r = false := dropWhile_head_false _ ls' r rs hrest
          have hrend : blockEnd r = true := by simpa using hr
          have hnamesrest : declaredNames ls' = declaredNames (r :: rs) := by
            rw [hnames, hrest]
          have hfresh' : ∀ m ∈ declaredNames (r :: rs),
              dictGet (dictSet blocks (declName l)
                ([l] ++ ls'.takeWhile (fun x => !blockEnd x))) m = none := by
            intro m hm
            have hmls : m ∈ declaredNames ls' := by rw [hnamesrest]; exact hm
            have hmne : m ≠ declName l := fun he => hn0 (he ▸ hmls)
            rw [dictGet_dictSet_ne _ _ _ _ hmne]
            exact hfresh m (List.mem_cons_of_mem _ hmls)
          have hndrest : (declaredNames (r :: rs)).Nodup := by
            rw [← hnamesrest]
            exact hnd'
          have hlt : (r :: rs).length < N := by
            have h1 := hlensplit
            rw [hrest] at h1
            simp only [List.length_cons] at h1 ⊢
            rw [← hlen]
            simp only [List.length_cons]
            omega
          have hassemble : ∀ X : List (Str × List Str),
              dictGet X n = (dictGet (specInterfaceBlocks (r :: rs)) n).or
                  (dictGet (dictSet blocks (declName l)
                    ([l] ++ ls'.takeWhile (fun x => !blockEnd x))) n) →
              dictGet X n =
                (dictGet ((declName l, l :: ls'.takeWhile (fun x => !blockEnd x)) ::
                  specInterfaceBlocks (r :: rs)) n).or (dictGet blocks n) := by
            intro X hX
            rw [hX]
            by_cases hn : n = declName l
            · subst hn
              rw [dictGet_specInterfaceBlocks_not_declared (r :: rs) (declName l)
                  (fun hm => hn0 (hnamesrest ▸ hm)),
                dictGet_dictSet_self, Option.none_or, dictGet_cons_self]
              rfl
            · rw [dictGet_dictSet_ne _ _ _ _ hn, dictGet_cons_ne _ _ _ _ hn]
          by_cases hrd : isDeclLine r = true
          · rw [segCore_cons_decl r rs _ _ hrd, ← segCore_cons_decl r rs _ none hrd]
            exact hassemble _ (ih (r :: rs).length hlt (r :: rs) rfl _ hndrest hfresh' n)
          · have hrdf : isDeclLine r = false := by simpa using hrd
            have hbang : leadsWith "!".toList r = true := by
              rcases Bool.or_eq_true_iff.mp (by rwa [blockEnd] at hrend) with hbt | hdt
              · exact hbt
              · exact absurd hdt (by simp [hrdf])
            rw [segCore_cons_bang r rs _ (declName l) hrdf hbang]
            have hdnr : declaredNames (r :: rs) = declaredNames rs := by
              rw [declaredNames_cons, if_neg (by simp [hrdf])]
            have hspecr : specInterfaceBlocks (r :: rs) = specInterfaceBlocks rs :=
              specInterfaceBlocks_cons_skip r rs hrdf
            refine hassemble _ ?_
            rw [hspecr]
            have hlt2 : rs.length < N := by
              simp only [List.length_cons] at hlt
              omega
            exact ih rs.length hlt2 rs rfl _ (hdnr ▸ hndrest)
              (fun m hm => hfresh' m (hdnr ▸ hm)) n
      · have hd : isDeclLine l = false := by simpa using hdecl
        rw [segCore_cons_skip l ls' blocks hd, specInterfaceBlocks_cons_skip l ls' hd]
        have hdn : declaredNames (l :: ls') = declaredNames ls' := by
          rw [declaredNames_cons, if_neg (by simp [hd])]
        rw [hdn] at hnd hfresh
        have hlt : ls'.length < N := by
          rw [← hlen, List.length_cons]
          omega
        exact ih ls'.length hlt ls' rfl blocks hnd hfresh n

/-- C9, counterexample: on a block containing a line `!x` and no line that is
solely `!`, the code closes the block at `!x` — the block keeps only its
declaration line and the following ` shutdown` line is dropped — while the
claimed solely-terminator reading (transcribed by `strictTerminatorBlocks`)
keeps all three lines; the two segmentations disagree. -/
theorem block_terminator_solely_refuted :
    get_interface_blocks bangCommentRun =
      some [("Gi0/1".toList, ["interface Gi0/1".toList])] ∧
    dictGet (strictTerminatorBlocks (splitLines bangCommentRun)) "Gi0/1".toList =
      some ["interface Gi0/1".toList, "!x".toList, " shutdown".toList] ∧
    (some ["interface Gi0/1".toList] : Option (List Str)) ≠
      some ["interface Gi0/1".toList, "!x".toList, " shutdown".toList] :=
  ⟨by decide, by decide, by decide⟩

/-- C9, amended: whenever `get_interface_blocks` succeeds and the declared
interface names are distinct, the block assigned to each interface name is
exactly the lines from its declaration up to (but not including) the first
line BEGINNING WITH the terminator character or the start of the next
interface block, whichever comes first; lines outside any block are ignored,
and a block with no terminator before end-of-input is still captured
(`specInterfaceBlocks` transcribes that amended reading). -/
theorem segmenter_matches_spec (showRun : Str) (bs : List (Str × List Str))
    (hb : get_interface_blocks showRun = some bs)
    (hnd : (declaredNames (splitLines showRun)).Nodup) (n : Str) :
    dictGet bs n = dictGet (specInterfaceBlocks (splitLines showRun)) n := by
  rw [get_interface_blocks] at hb
  split at hb
  · injection hb with hb
    subst hb
    rw [segCore_spec (splitLines showRun).length (splitLines showRun) rfl [] hnd
      (fun m _ => rfl) n]
    rw [show dictGet ([] : List (Str × List Str)) n = none from rfl, Option.or_none]
  · exact absurd hb (by simp)

/-- C9, witness: on the concrete configuration the code's block for `Gi0/1`
agrees with the specified segmentation. -/
theorem segmenter_matches_spec_witness :
    dictGet [("Gi0/1".toList, ["interface Gi0/1".toList, " sw acc".toList]),
             ("Gi0/2".toList, ["interface Gi0/2".toList, " x".toList])] "Gi0/1".toList =
      dictGet (specInterfaceBlocks (splitLines wellRun)) "Gi0/1".toList :=
  segmenter_matches_spec wellRun
    [("Gi0/1".toList, ["interface Gi0/1".toList, " sw acc".toList]),
     ("Gi0/2".toList, ["interface Gi0/2".toList, " x".toList])]
    (by decide) (by decide) "Gi0/1".toList

end NetworkConfig

